import Mathlib

/-!
Shallow embedding of the `fourcc` Rust crate (`src/lib.rs`).

The crate defines `pub type TypeId = [u8;4]` and
`pub struct FourCC(pub TypeId)` with derived `Eq`, `PartialEq`,
`PartialOrd` and `Hash`, conversions from `&str` / `&TypeId` / `u32`
and back, heterogeneous `PartialEq` / `PartialOrd` impls, an
`is_valid` predicate and `Display` / `Debug` formatting.

Bytes (`u8`) are modelled as `Fin 256`; `u32` values as `Nat`
(with hypotheses `n < 2^32` where the width matters); Rust `&str`
values as their UTF-8 byte sequence, i.e. `List Byte`; operations that
can panic in Rust (slicing a string shorter than 4 bytes) return
`Option`.
-/

/-- A `u8` byte. -/
abbrev Byte := Fin 256

/-- `pub type TypeId = [u8;4]` — an exact 4-byte sequence. -/
structure TypeId where
  b0 : Byte
  b1 : Byte
  b2 : Byte
  b3 : Byte
deriving DecidableEq

/-- `pub struct FourCC(pub TypeId)`. -/
structure FourCC where
  val : TypeId
deriving DecidableEq

/-- The bytes of a `TypeId` in stored order, as a list. -/
def TypeId.toList (t : TypeId) : List Byte :=
  [t.b0, t.b1, t.b2, t.b3]

/-- Derived `PartialEq`/`Eq` on `[u8;4]`: element-wise equality. -/
def TypeId.beq (a b : TypeId) : Bool :=
  a.b0 == b.b0 && a.b1 == b.b1 && a.b2 == b.b2 && a.b3 == b.b3

/-- Derived `PartialEq` on `FourCC`: equality of the single `TypeId` field. -/
def FourCC.beq (a b : FourCC) : Bool :=
  TypeId.beq a.val b.val

/-- `PartialOrd` on `[u8;4]` (used by the derived `PartialOrd` of `FourCC`
and by `impl PartialOrd<&TypeId>`): lexicographic comparison, element-wise
in stored order, the first non-equal pair deciding. On arrays of `u8` the
comparison is total, so the model returns `Ordering` directly. -/
def TypeId.cmp (a b : TypeId) : Ordering :=
  (compare a.b0.val b.b0.val).then
    ((compare a.b1.val b.b1.val).then
      ((compare a.b2.val b.b2.val).then
        (compare a.b3.val b.b3.val)))

/-- Derived `PartialOrd` on `FourCC`: comparison of the single field. -/
def FourCC.cmp (a b : FourCC) : Ordering :=
  TypeId.cmp a.val b.val

/-- `impl From<&str> for FourCC`:
`FourCC(s.as_bytes()[..4].try_into().unwrap())`.
Takes exactly the first 4 bytes of the string's byte encoding; the slice
`[..4]` panics when the string is shorter than 4 bytes, modelled as
`none`. -/
def FourCC.fromString (s : List Byte) : Option FourCC :=
  match s with
  | a :: b :: c :: d :: _ => some ⟨⟨a, b, c, d⟩⟩
  | _ => none

/-- `impl From<&TypeId> for FourCC`: `Self(*bytes)` — store bytes unchanged. -/
def FourCC.fromBytes (bytes : TypeId) : FourCC :=
  ⟨bytes⟩

/-- `impl From<u32> for FourCC`: `Self(u32::to_be_bytes(num))` — big-endian
byte decomposition, most significant byte first. -/
def FourCC.fromU32 (num : Nat) : FourCC :=
  ⟨⟨⟨num / 2 ^ 24 % 256, Nat.mod_lt _ (by norm_num)⟩,
    ⟨num / 2 ^ 16 % 256, Nat.mod_lt _ (by norm_num)⟩,
    ⟨num / 2 ^ 8 % 256, Nat.mod_lt _ (by norm_num)⟩,
    ⟨num % 256, Nat.mod_lt _ (by norm_num)⟩⟩⟩

/-- `impl From<FourCC> for TypeId`: `fourcc.0` — the stored bytes unchanged. -/
def FourCC.toBytes (fourcc : FourCC) : TypeId :=
  fourcc.val

/-- `impl From<FourCC> for u32`: `u32::from_be_bytes(fourcc.0)` — recompose
the bytes big-endian. -/
def FourCC.toU32 (fourcc : FourCC) : Nat :=
  fourcc.val.b0.val * 2 ^ 24 + fourcc.val.b1.val * 2 ^ 16 +
    fourcc.val.b2.val * 2 ^ 8 + fourcc.val.b3.val

/-- `impl PartialEq<&TypeId> for FourCC`: `self.0.as_ref() == *other` —
byte-slice equality against the stored bytes. -/
def FourCC.eqBytes (self : FourCC) (other : TypeId) : Bool :=
  TypeId.beq self.val other

/-- `impl PartialEq<&str> for FourCC`: `self == &FourCC::from(*other)` —
convert the string first (which can panic, hence `Option`), then compare. -/
def FourCC.eqStr (self : FourCC) (other : List Byte) : Option Bool :=
  (FourCC.fromString other).map (fun w => FourCC.beq self w)

/-- `impl PartialEq<u32> for FourCC`: `self == &FourCC::from(*other)`. -/
def FourCC.eqU32 (self : FourCC) (other : Nat) : Bool :=
  FourCC.beq self (FourCC.fromU32 other)

/-- `impl PartialOrd<&TypeId> for FourCC`: `self.0.partial_cmp(*other)` —
lexicographic comparison of the stored bytes against the slice. -/
def FourCC.cmpBytes (self : FourCC) (other : TypeId) : Ordering :=
  TypeId.cmp self.val other

/-- `impl PartialOrd<&str> for FourCC`:
`self.partial_cmp(&FourCC::from(*other))` — convert the string first
(which can panic, hence `Option`), then compare. -/
def FourCC.cmpStr (self : FourCC) (other : List Byte) : Option Ordering :=
  (FourCC.fromString other).map (fun w => FourCC.cmp self w)

/-- `impl PartialOrd<u32> for FourCC`:
`self.partial_cmp(&FourCC::from(*other))`. -/
def FourCC.cmpU32 (self : FourCC) (other : Nat) : Ordering :=
  FourCC.cmp self (FourCC.fromU32 other)

/-- `u8::is_ascii_graphic`: `matches!(*self, b'!'..=b'~')`, i.e.
`0x21 <= b && b <= 0x7E`. -/
def Byte.is_ascii_graphic (b : Byte) : Bool :=
  decide (0x21 ≤ b.val) && decide (b.val ≤ 0x7E)

/-- `FourCC::is_valid`: `self.0.iter().all(|&b| b.is_ascii_graphic())`. -/
def FourCC.is_valid (self : FourCC) : Bool :=
  (self.val.toList).all Byte.is_ascii_graphic

/-- `impl Display for FourCC`: writes `self.0[i] as char` for i = 0..3 with
no delimiters. `u8 as char` maps a byte to the Unicode code point of the
same value, so the output is modelled as the list of the four code points. -/
def FourCC.display (self : FourCC) : List Nat :=
  [self.val.b0.val, self.val.b1.val, self.val.b2.val, self.val.b3.val]

/-- `impl Debug for FourCC`: the same four characters wrapped in single
quotes (code point 0x27). -/
def FourCC.debugDisplay (self : FourCC) : List Nat :=
  0x27 :: self.display ++ [0x27]

/-- Derived `Hash` on `FourCC`: hashes the single `TypeId` field, which
feeds its 4 bytes to the hasher in stored order. The model records the
byte stream fed to the hasher; any concrete hasher is a function of it. -/
def FourCC.hashFeed (self : FourCC) : List Byte :=
  self.val.toList

/-- Specification-side lexicographic comparison of byte sequences:
unsigned byte-wise, the first differing byte decides the order. -/
def lexCompare : List Byte → List Byte → Ordering
  | [], [] => Ordering.eq
  | [], _ :: _ => Ordering.lt
  | _ :: _, [] => Ordering.gt
  | a :: as, b :: bs =>
    if a.val < b.val then Ordering.lt
    else if b.val < a.val then Ordering.gt
    else lexCompare as bs

/-- The byte sequence of `"RGBA"` (UTF-8 = ASCII). -/
def rgbaBytes : List Byte := [⟨0x52, by norm_num⟩, ⟨0x47, by norm_num⟩, ⟨0x42, by norm_num⟩, ⟨0x41, by norm_num⟩]

/-- The byte sequence of `"ARGB"` (UTF-8 = ASCII). -/
def argbBytes : List Byte := [⟨0x41, by norm_num⟩, ⟨0x52, by norm_num⟩, ⟨0x47, by norm_num⟩, ⟨0x42, by norm_num⟩]

/-- The `TypeId` `[0x52, 0x47, 0x42, 0x41]` (`b"RGBA"`). -/
def rgbaId : TypeId := ⟨⟨0x52, by norm_num⟩, ⟨0x47, by norm_num⟩, ⟨0x42, by norm_num⟩, ⟨0x41, by norm_num⟩⟩

/-- The `TypeId` `[0x41, 0x52, 0x47, 0x42]` (`b"ARGB"`). -/
def argbId : TypeId := ⟨⟨0x41, by norm_num⟩, ⟨0x52, by norm_num⟩, ⟨0x47, by norm_num⟩, ⟨0x42, by norm_num⟩⟩

/-! ## Helper lemmas -/

theorem nat_compare_then_if (x y : Nat) (o : Ordering) :
    (compare x y).then o =
      if x < y then Ordering.lt else if y < x then Ordering.gt else o := by
  rcases Nat.lt_trichotomy x y with h | h | h
  · rw [Nat.compare_eq_lt.mpr h, if_pos h]
    rfl
  · subst h
    rw [Nat.compare_eq_eq.mpr rfl, if_neg (by omega), if_neg (by omega)]
    rfl
  · rw [Nat.compare_eq_gt.mpr h, if_neg (by omega), if_pos h]
    rfl

theorem nat_compare_add_left (c x y : Nat) :
    compare (c + x) (c + y) = compare x y := by
  rcases Nat.lt_trichotomy x y with h | h | h
  · rw [Nat.compare_eq_lt.mpr h, Nat.compare_eq_lt.mpr (show c + x < c + y by omega)]
  · subst h
    rw [Nat.compare_eq_eq.mpr rfl]
    exact (Nat.compare_eq_eq.mpr rfl).symm
  · rw [Nat.compare_eq_gt.mpr h, Nat.compare_eq_gt.mpr (show c + y < c + x by omega)]

theorem nat_compare_mul_add (K hi1 hi2 lo1 lo2 : Nat)
    (h1 : lo1 < K) (h2 : lo2 < K) :
    compare (hi1 * K + lo1) (hi2 * K + lo2) =
      (compare hi1 hi2).then (compare lo1 lo2) := by
  rcases Nat.lt_trichotomy hi1 hi2 with h | h | h
  · have hlt : hi1 * K + lo1 < hi2 * K + lo2 := by
      calc hi1 * K + lo1 < hi1 * K + K := by omega
        _ = (hi1 + 1) * K := by ring
        _ ≤ hi2 * K := Nat.mul_le_mul_right K h
        _ ≤ hi2 * K + lo2 := Nat.le_add_right _ _
    rw [Nat.compare_eq_lt.mpr hlt, Nat.compare_eq_lt.mpr h]
    rfl
  · subst h
    rw [Nat.compare_eq_eq.mpr rfl, nat_compare_add_left]
    rfl
  · have hgt : hi2 * K + lo2 < hi1 * K + lo1 := by
      calc hi2 * K + lo2 < hi2 * K + K := by omega
        _ = (hi2 + 1) * K := by ring
        _ ≤ hi1 * K := Nat.mul_le_mul_right K h
        _ ≤ hi1 * K + lo1 := Nat.le_add_right _ _
    rw [Nat.compare_eq_gt.mpr hgt, Nat.compare_eq_gt.mpr h]
    rfl

theorem fromString_eq_none_iff (s : List Byte) :
    FourCC.fromString s = none ↔ s.length < 4 := by
  match s with
  | [] => simp [FourCC.fromString]
  | [a] => simp [FourCC.fromString]
  | [a, b] => simp [FourCC.fromString]
  | [a, b, c] => simp [FourCC.fromString]
  | a :: b :: c :: d :: t => simp [FourCC.fromString]

/-! ## Claim theorems -/

/-- C1: both conversions round-trip: for every 32-bit unsigned integer
`n`, converting `n` to a `FourCC` (big-endian byte decomposition) and
back yields `n`; and for every 4-byte sequence `b`, converting `b` to a
`FourCC` and back to bytes yields `b` unchanged. -/
theorem fourcc_roundtrip :
    (∀ n : Nat, n < 2 ^ 32 → FourCC.toU32 (FourCC.fromU32 n) = n) ∧
    (∀ b : TypeId, FourCC.toBytes (FourCC.fromBytes b) = b) := by
  constructor
  · intro n hn
    simp only [FourCC.toU32, FourCC.fromU32]
    omega
  · intro b
    rfl

/-- Witness for C1 at `n = 1380401729` and `b = b"RGBA"`. -/
theorem fourcc_roundtrip_witness :
    FourCC.toU32 (FourCC.fromU32 1380401729) = 1380401729 ∧
    FourCC.toBytes (FourCC.fromBytes rgbaId) = rgbaId :=
  ⟨fourcc_roundtrip.1 1380401729 (by norm_num), fourcc_roundtrip.2 rgbaId⟩

/-- C4: `is_valid` is true iff every one of the 4 stored bytes lies in the
printable ASCII graphic range `0x21 .. 0x7E` inclusive (hence false for
control characters, null, space, and any byte at or above 0x80). -/
theorem fourcc_is_valid_iff (v : FourCC) :
    v.is_valid = true ↔ ∀ b ∈ v.val.toList, 0x21 ≤ b.val ∧ b.val ≤ 0x7E := by
  simp [FourCC.is_valid, Byte.is_ascii_graphic, TypeId.toList]

/-- C6: constructing a `FourCC` from a string whose encoded length is
less than 4 bytes fails and produces no value. -/
theorem fourcc_fromString_short (s : List Byte) (h : s.length < 4) :
    FourCC.fromString s = none :=
  (fromString_eq_none_iff s).mpr h

/-- Witness for C6 at the empty string. -/
theorem fourcc_fromString_short_witness :
    ([] : List Byte).length < 4 ∧ FourCC.fromString [] = none :=
  ⟨by decide, fourcc_fromString_short [] (by decide)⟩

/-- C5: construction from a string takes exactly the first 4 bytes of its
byte encoding; bytes beyond the fourth have no effect on the result. -/
theorem fourcc_fromString_first4 (s : List Byte) (h : 4 ≤ s.length) :
    FourCC.fromString s =
      some ⟨⟨s.get ⟨0, by omega⟩, s.get ⟨1, by omega⟩,
        s.get ⟨2, by omega⟩, s.get ⟨3, by omega⟩⟩⟩ ∧
    ∀ t : List Byte, FourCC.fromString (s.take 4 ++ t) = FourCC.fromString s := by
  rcases s with _ | ⟨a, _ | ⟨b, _ | ⟨c, _ | ⟨d, r⟩⟩⟩⟩
  · simp at h
  · simp at h
  · simp at h
  · simp at h
  · exact ⟨rfl, fun t => rfl⟩

/-- Witness for C5 at the 8-byte string `"RGBAARGB"`. -/
theorem fourcc_fromString_first4_witness :
    FourCC.fromString (rgbaBytes ++ argbBytes) =
      some ⟨⟨(rgbaBytes ++ argbBytes).get ⟨0, by decide⟩,
        (rgbaBytes ++ argbBytes).get ⟨1, by decide⟩,
        (rgbaBytes ++ argbBytes).get ⟨2, by decide⟩,
        (rgbaBytes ++ argbBytes).get ⟨3, by decide⟩⟩⟩ ∧
    FourCC.fromString ((rgbaBytes ++ argbBytes).take 4 ++ argbBytes) =
      FourCC.fromString (rgbaBytes ++ argbBytes) := by
  have h := fourcc_fromString_first4 (rgbaBytes ++ argbBytes) (by decide)
  exact ⟨h.1, h.2 argbBytes⟩

/-- C2: equality is representation-invariant: two `FourCC` values are equal
iff their 4-byte sequences are identical, and the heterogeneous equality
against bytes, strings (length at least 4) and integers agrees with first
converting the foreign value by the corresponding construction rule and
then comparing byte sequences. -/
theorem fourcc_eq_repr_invariant :
    (∀ v w : FourCC, FourCC.beq v w = true ↔ v.val = w.val) ∧
    (∀ (v : FourCC) (b : TypeId), FourCC.eqBytes v b = FourCC.beq v (FourCC.fromBytes b)) ∧
    (∀ (v : FourCC) (s : List Byte) (w : FourCC),
      FourCC.fromString s = some w → FourCC.eqStr v s = some (FourCC.beq v w)) ∧
    (∀ (v : FourCC) (n : Nat), FourCC.eqU32 v n = FourCC.beq v (FourCC.fromU32 n)) := by
  refine ⟨?_, fun v b => rfl, ?_, fun v n => rfl⟩
  · intro v w
    obtain ⟨⟨a0, a1, a2, a3⟩⟩ := v
    obtain ⟨⟨b0, b1, b2, b3⟩⟩ := w
    simp [FourCC.beq, TypeId.beq, and_assoc]
  · intro v s w hw
    simp [FourCC.eqStr, hw]

/-- Witness for C2: comparing `FourCC(b"RGBA")` against the string `"RGBA"`
goes through string conversion. -/
theorem fourcc_eq_repr_invariant_witness :
    FourCC.eqStr (FourCC.fromBytes rgbaId) rgbaBytes =
      some (FourCC.beq (FourCC.fromBytes rgbaId) (FourCC.fromBytes rgbaId)) :=
  fourcc_eq_repr_invariant.2.2.1 (FourCC.fromBytes rgbaId) rgbaBytes
    (FourCC.fromBytes rgbaId) (by decide)

/-- C3: ordering against a `FourCC`, a 4-byte sequence, a string (length at
least 4) or a 32-bit integer converts the foreign value to a `FourCC` by
the same construction rule and then compares the two byte sequences
lexicographically as unsigned bytes, first differing byte deciding; in
particular `from_string("RGBA") > from_string("ARGB")` and
`from_string("RGBA") > 1095911234` hold simultaneously. -/
theorem fourcc_ord_lexicographic :
    (∀ a b : FourCC, FourCC.cmp a b = lexCompare a.val.toList b.val.toList) ∧
    (∀ (v : FourCC) (b : TypeId), FourCC.cmpBytes v b = FourCC.cmp v (FourCC.fromBytes b)) ∧
    (∀ (v : FourCC) (s : List Byte) (w : FourCC),
      FourCC.fromString s = some w → FourCC.cmpStr v s = some (FourCC.cmp v w)) ∧
    (∀ (v : FourCC) (n : Nat), FourCC.cmpU32 v n = FourCC.cmp v (FourCC.fromU32 n)) ∧
    FourCC.fromString rgbaBytes = some (FourCC.fromBytes rgbaId) ∧
    FourCC.fromString argbBytes = some (FourCC.fromBytes argbId) ∧
    FourCC.cmp (FourCC.fromBytes rgbaId) (FourCC.fromBytes argbId) = Ordering.gt ∧
    FourCC.cmpU32 (FourCC.fromBytes rgbaId) 1095911234 = Ordering.gt := by
  refine ⟨?_, fun v b => rfl, ?_, fun v n => rfl, by decide, by decide, by decide, by decide⟩
  · intro a b
    obtain ⟨⟨a0, a1, a2, a3⟩⟩ := a
    obtain ⟨⟨b0, b1, b2, b3⟩⟩ := b
    simp only [FourCC.cmp, TypeId.cmp, TypeId.toList, lexCompare,
      nat_compare_then_if, Nat.compare_def_lt]
    split_ifs <;> rfl
  · intro v s w hw
    simp [FourCC.cmpStr, hw]

/-- Witness for C3: ordering `FourCC(b"RGBA")` against the string `"ARGB"`
goes through string conversion. -/
theorem fourcc_ord_lexicographic_witness :
    FourCC.cmpStr (FourCC.fromBytes rgbaId) argbBytes =
      some (FourCC.cmp (FourCC.fromBytes rgbaId) (FourCC.fromBytes argbId)) :=
  fourcc_ord_lexicographic.2.2.1 (FourCC.fromBytes rgbaId) argbBytes
    (FourCC.fromBytes argbId) (by decide)

/-- The byte sequence of `"AB"`, only two bytes long. -/
def abBytes : List Byte := [⟨0x41, by norm_num⟩, ⟨0x42, by norm_num⟩]

/-- C7 counterexample: equality and ordering comparisons against the 2-byte
string `"AB"` fail (the string conversion inside the comparison fails), so
the comparisons against strings are not total over all strings. -/
theorem fourcc_str_comparisons_can_fail :
    FourCC.eqStr (FourCC.fromBytes rgbaId) abBytes = none ∧
    FourCC.cmpStr (FourCC.fromBytes rgbaId) abBytes = none := by
  decide

/-- C7 (amended): the only failure condition in the API is a string input
shorter than 4 encoded bytes: string construction fails exactly then, the
equality and ordering comparisons against strings inherit exactly that
failure, and every other operation is total. -/
theorem fourcc_failure_iff_short_string :
    ∀ s : List Byte,
      (FourCC.fromString s = none ↔ s.length < 4) ∧
      ∀ v : FourCC,
        (FourCC.eqStr v s = none ↔ s.length < 4) ∧
        (FourCC.cmpStr v s = none ↔ s.length < 4) := by
  intro s
  have h := fromString_eq_none_iff s
  have he : ∀ v : FourCC, FourCC.eqStr v s = none ↔ FourCC.fromString s = none := by
    intro v
    cases hfs : FourCC.fromString s <;> simp [FourCC.eqStr, hfs]
  have hc : ∀ v : FourCC, FourCC.cmpStr v s = none ↔ FourCC.fromString s = none := by
    intro v
    cases hfs : FourCC.fromString s <;> simp [FourCC.cmpStr, hfs]
  exact ⟨h, fun v => ⟨(he v).trans h, (hc v).trans h⟩⟩

/-- C8: the hash input stream of a `FourCC` is a pure function of its 4
stored bytes and is consistent with equality: two values are equal exactly
when the byte streams they feed to a hasher coincide, so equal values hash
identically under any hasher, regardless of construction route. -/
theorem fourcc_hash_consistent_with_eq :
    (∀ v : FourCC, FourCC.hashFeed v = (FourCC.toBytes v).toList) ∧
    (∀ v w : FourCC, FourCC.beq v w = true ↔ FourCC.hashFeed v = FourCC.hashFeed w) := by
  refine ⟨fun v => rfl, ?_⟩
  intro v w
  obtain ⟨⟨a0, a1, a2, a3⟩⟩ := v
  obtain ⟨⟨b0, b1, b2, b3⟩⟩ := w
  simp [FourCC.beq, TypeId.beq, FourCC.hashFeed, TypeId.toList, and_assoc]

/-- C9: the display rendering is the 4 stored bytes decoded one byte per
character with no delimiters, the debug rendering is the same 4 characters
wrapped in single quotes, both renderings are total (always 4 characters,
resp. 6) even for invalid bytes, and
`display(from_string("RGBA")) = "RGBA"`,
`debug_display(from_string("RGBA")) = "'RGBA'"`. -/
theorem fourcc_display_spec :
    (∀ v : FourCC,
      FourCC.display v = [v.val.b0.val, v.val.b1.val, v.val.b2.val, v.val.b3.val] ∧
      (FourCC.display v).length = 4 ∧
      FourCC.debugDisplay v = 0x27 :: FourCC.display v ++ [0x27]) ∧
    (FourCC.fromString rgbaBytes).map FourCC.display = some [0x52, 0x47, 0x42, 0x41] ∧
    (FourCC.fromString rgbaBytes).map FourCC.debugDisplay =
      some [0x27, 0x52, 0x47, 0x42, 0x41, 0x27] ∧
    (FourCC.display (FourCC.fromBytes ⟨0, 1, 2, 3⟩)).length = 4 :=
  ⟨fun v => ⟨rfl, rfl, rfl⟩, by decide, by decide, rfl⟩

/-- C10: the lexicographic byte ordering on `FourCC` values is
order-isomorphic to the numeric ordering of their big-endian 32-bit
integer views. -/
theorem fourcc_ord_iso_u32 (a b : FourCC) :
    FourCC.cmp a b = compare (FourCC.toU32 a) (FourCC.toU32 b) := by
  obtain ⟨⟨a0, a1, a2, a3⟩⟩ := a
  obtain ⟨⟨b0, b1, b2, b3⟩⟩ := b
  have ha1 := a1.isLt
  have ha2 := a2.isLt
  have ha3 := a3.isLt
  have hb1 := b1.isLt
  have hb2 := b2.isLt
  have hb3 := b3.isLt
  have e1 : FourCC.toU32 ⟨⟨a0, a1, a2, a3⟩⟩ =
      a0.val * 2 ^ 24 + (a1.val * 2 ^ 16 + (a2.val * 2 ^ 8 + a3.val)) := by
    simp only [FourCC.toU32]
    ring
  have e2 : FourCC.toU32 ⟨⟨b0, b1, b2, b3⟩⟩ =
      b0.val * 2 ^ 24 + (b1.val * 2 ^ 16 + (b2.val * 2 ^ 8 + b3.val)) := by
    simp only [FourCC.toU32]
    ring
  rw [e1, e2]
  rw [nat_compare_mul_add (2 ^ 24) a0.val b0.val
    (a1.val * 2 ^ 16 + (a2.val * 2 ^ 8 + a3.val))
    (b1.val * 2 ^ 16 + (b2.val * 2 ^ 8 + b3.val)) (by omega) (by omega)]
  rw [nat_compare_mul_add (2 ^ 16) a1.val b1.val
    (a2.val * 2 ^ 8 + a3.val) (b2.val * 2 ^ 8 + b3.val) (by omega) (by omega)]
  rw [nat_compare_mul_add (2 ^ 8) a2.val b2.val a3.val b3.val (by omega) (by omega)]
  rfl

/-- Witness for C4 at `FourCC(b"RGBA")`. -/
theorem fourcc_is_valid_iff_witness :
    (FourCC.fromBytes rgbaId).is_valid = true ↔
      ∀ b ∈ (FourCC.fromBytes rgbaId).val.toList, 0x21 ≤ b.val ∧ b.val ≤ 0x7E :=
  fourcc_is_valid_iff (FourCC.fromBytes rgbaId)

/-- Witness for the amended C7 at the 2-byte string `"AB"`. -/
theorem fourcc_failure_iff_short_string_witness :
    FourCC.fromString abBytes = none ↔ abBytes.length < 4 :=
  (fourcc_failure_iff_short_string abBytes).1

/-- Witness for C8: a value built from bytes and one built from the
integer 1380401729 feed the same byte stream to the hasher. -/
theorem fourcc_hash_consistent_with_eq_witness :
    FourCC.beq (FourCC.fromBytes rgbaId) (FourCC.fromU32 1380401729) = true ↔
      FourCC.hashFeed (FourCC.fromBytes rgbaId) = FourCC.hashFeed (FourCC.fromU32 1380401729) :=
  fourcc_hash_consistent_with_eq.2 (FourCC.fromBytes rgbaId) (FourCC.fromU32 1380401729)

/-- Witness for C9: display of `from_string("RGBA")` is `"RGBA"`. -/
theorem fourcc_display_spec_witness :
    (FourCC.fromString rgbaBytes).map FourCC.display = some [0x52, 0x47, 0x42, 0x41] :=
  fourcc_display_spec.2.1

/-- Witness for C10 at `FourCC(b"RGBA")` and `FourCC(b"ARGB")`. -/
theorem fourcc_ord_iso_u32_witness :
    FourCC.cmp (FourCC.fromBytes rgbaId) (FourCC.fromBytes argbId) =
      compare (FourCC.toU32 (FourCC.fromBytes rgbaId)) (FourCC.toU32 (FourCC.fromBytes argbId)) :=
  fourcc_ord_iso_u32 (FourCC.fromBytes rgbaId) (FourCC.fromBytes argbId)
